import Mathlib

/-!
Verification of the adso interpreter (src/adso.js): a lexer, a
recursive-descent parser and a tree-walking evaluator for a minimal
imperative language.  The definitions below are a shallow embedding of
the JavaScript source, function by function; the theorems settle the
specification claims against it.
-/

namespace Adso

/-! ## JavaScript number model

The source stores numeric values in JavaScript numbers (IEEE-754
doubles).  Integers of magnitude below 2^53 are exact; larger integers
are rounded to 53 significant bits (round to nearest, ties to even).
`f64round` is that rounding on naturals, `jsOfInt` extends it to
integers by sign symmetry.  Results of magnitude at or above 2^1024
would be infinite in JavaScript; no claim depends on that range, and
`f64round` simply returns the rounded value there as well. -/

/-- Floor of the base-2 logarithm, by structural recursion on a fuel
argument so that it computes inside the kernel (`Nat.log2` itself is
defined by well-founded recursion); `natLog2 n` uses fuel `n`, which
always suffices. -/
def log2Fuel : Nat → Nat → Nat
  | 0, _ => 0
  | fuel + 1, n => if n < 2 then 0 else log2Fuel fuel (n / 2) + 1

def natLog2 (n : Nat) : Nat := log2Fuel n n

def f64round (n : Nat) : Nat :=
  if n < 2 ^ 53 then n
  else
    let k := natLog2 n
    let e := k - 52
    let q := n / 2 ^ e
    let r := n % 2 ^ e
    let h := 2 ^ (e - 1)
    if r < h then q * 2 ^ e
    else if h < r then (q + 1) * 2 ^ e
    else (if q % 2 = 0 then q else q + 1) * 2 ^ e

def jsOfInt (z : Int) : Int :=
  if z < 0 then -(f64round z.natAbs : Nat) else (f64round z.natAbs : Nat)

/-- JS `*` on integer-valued doubles: the exact product, rounded. -/
def jsMul (a b : Int) : Int := jsOfInt (a * b)

/-- JS `-` on integer-valued doubles: the exact difference, rounded. -/
def jsSub (a b : Int) : Int := jsOfInt (a - b)

/-! ## Lexer (class Lexer, src/adso.js lines 409-501)

The lexer state keeps the not-yet-consumed characters together with the
line/column counters.  The JavaScript object keeps the whole text and a
cursor `pos`; `pos` is only ever used through `peek` (`text[pos]`),
`eat` (`text[pos++]`) and `atEnd` (`pos >= text.length`), so holding the
suffix `text.drop pos` is an equivalent state. -/

structure LexState where
  rem : List Char
  line : Nat
  col : Nat
  deriving DecidableEq, Repr

/-- The value carried by a token: `value` is a string for symbols,
identifiers, keywords and the eof marker, and a number for numeric
literals. -/
inductive TokVal where
  | str (s : String)
  | num (n : Nat)
  deriving DecidableEq, Repr

/-- JS reads `tok.value` as a string in identifier positions. -/
def TokVal.asStr : TokVal → String
  | .str s => s
  | .num n => toString n

def TokVal.asNum : TokVal → Nat
  | .num n => n
  | .str _ => 0

structure Token where
  type : String
  value : TokVal
  line : Nat
  col : Nat
  deriving DecidableEq, Repr

/-- Lexing errors (class LexingError). -/
structure LexErr where
  msg : String
  line : Nat
  col : Nat
  deriving DecidableEq, Repr

def isDigitCh (c : Char) : Bool :=
  ("0123456789".toList).contains c

def isIdentCh (c : Char) : Bool :=
  ('a' ≤ c ∧ c ≤ 'z') ∨ ('A' ≤ c ∧ c ≤ 'Z')

def isWsCh (c : Char) : Bool :=
  (" \n\t".toList).contains c

def symbolChars : List Char := ['(', ')', '\x7b', '\x7d', ';', '<', '*', '-']

/-- `eatWhitespace` (lines 470-478): skip space, newline and tab,
maintaining line/column. -/
def eatWs : List Char → Nat → Nat → LexState
  | [], line, col => ⟨[], line, col⟩
  | c :: rest, line, col =>
    if isWsCh c then
      if c = '\n' then eatWs rest (line + 1) 1 else eatWs rest line (col + 1)
    else ⟨c :: rest, line, col⟩

def LexState.eatWhitespace (s : LexState) : LexState :=
  eatWs s.rem s.line s.col

/-- Letter run of `scanIdent`'s while loop. -/
def takeLetters : List Char → List Char
  | [] => []
  | c :: rest => if isIdentCh c then c :: takeLetters rest else []

def dropLetters : List Char → List Char
  | [] => []
  | c :: rest => if isIdentCh c then dropLetters rest else c :: rest

/-- Digit run of `scanNumber`'s while loop. -/
def takeDigits : List Char → List Char
  | [] => []
  | c :: rest => if isDigitCh c then c :: takeDigits rest else []

def dropDigits : List Char → List Char
  | [] => []
  | c :: rest => if isDigitCh c then dropDigits rest else c :: rest

def digitsToNat (ds : List Char) : Nat :=
  ds.foldl (fun acc c => acc * 10 + (c.toNat - 48)) 0

/-- `parseInt(number, 10)` on a run of ASCII digits: JavaScript's
`parseInt` never throws on such input; it returns the nearest double.
The `try/catch` around it in `scanNumber` (lines 449-453) is therefore
dead code and the lexer has no error path for numbers. -/
def jsParseIntDigits (ds : List Char) : Nat :=
  f64round (digitsToNat ds)

/-- `Lexer.next` (lines 480-496): skip whitespace, then emit the eof
token at end of input, a symbol, a number, an identifier or keyword, or
fail on any other character.  `emit` attaches the line/column counters
as they stand after the token has been scanned. -/
def nextTok (s : LexState) : Except LexErr (Token × LexState) :=
  let s1 := s.eatWhitespace
  match s1.rem with
  | [] => .ok (⟨"eof", .str "eof", s1.line, s1.col⟩, s1)
  | c :: rest =>
    if symbolChars.contains c then
      .ok (⟨"symbol", .str (String.mk [c]), s1.line, s1.col + 1⟩,
            ⟨rest, s1.line, s1.col + 1⟩)
    else if isDigitCh c then
      let digits := c :: takeDigits rest
      let rest1 := dropDigits rest
      let col1 := s1.col + digits.length
      .ok (⟨"number", .num (jsParseIntDigits digits), s1.line, col1⟩,
            ⟨rest1, s1.line, col1⟩)
    else if isIdentCh c then
      let letters := c :: takeLetters rest
      let rest1 := dropLetters rest
      let col1 := s1.col + letters.length
      let name := String.mk letters
      let ty := if name = "if" ∨ name = "return" then "keyword" else "ident"
      .ok (⟨ty, .str name, s1.line, col1⟩, ⟨rest1, s1.line, col1⟩)
    else
      .error ⟨"Invalid lexical element", s1.line, s1.col⟩

def LexState.atEnd (s : LexState) : Bool := s.rem.isEmpty

def mkLexState (text : List Char) : LexState := ⟨text, 1, 1⟩

/-! ## Abstract syntax (grammar comment, src/adso.js lines 215-225)

The parser builds plain objects tagged with a `type` string; they map to
the closed inductives below.  A `FnCall` object is used both as an
expression and as a statement; `St.fnCallSt` carries its two fields. -/

/-- Expressions.  In the source a `FnCall` node's `arg` can be `null`,
but the parser always fills it (`fnCallWithName` parses a mandatory
argument); the only argument-less call node is the synthesized call to
`main`, which lives in `Program.body` (see `TopNode`).  Expression- and
statement-position call nodes therefore carry a plain argument. -/
inductive Expr where
  | num (value : Nat)
  | ident (name : String)
  | fnCall (name : String) (arg : Expr)
  | arith (left : Expr) (op : Char) (right : Expr)
  deriving DecidableEq, Repr

inductive St where
  | ifSt (condition : Expr) (body : List St)
  | returnSt (value : Expr)
  | fnCallSt (name : String) (arg : Expr)

structure FnDef where
  return_type : String
  name : String
  param_type : Option String
  param_name : Option String
  body : List St

/-- A node of `Program.body`: the parser produces only `FnDef`s, and
`interpret` appends one argument-less `FnCall` node (line 211). -/
inductive TopNode where
  | fnDef (d : FnDef)
  | fnCall (name : String) (arg : Option Expr)

structure Program where
  body : List TopNode

/-! ## Parser (function parse, src/adso.js lines 234-393)

The parser is a family of mutually recursive procedures driving the
lexer.  They are embedded as one fuelled function `parseGo` over a sum
of entry points (`PCall`) and results (`PVal`); fuel decreases at every
entry, so the definition is structural and computes in the kernel.
`parserNoTimeout` below shows `2 * length + 4` fuel always suffices, so
`parse` — defined with that fuel — is the total parser of the source. -/

/-- Parse-time errors: `ParserError` or a `LexingError` escaping from
`lexer.next`. -/
inductive PErr where
  | lexE (e : LexErr)
  | parseE (msg : String)
  deriving DecidableEq, Repr

inductive PResult (α : Type) where
  | ok (a : α) (s : LexState)
  | fail (e : PErr)
  | timeout

/-- `ident()` (lines 235-241): next token must be an identifier; its
value is returned. -/
def identP (s : LexState) : PResult String :=
  match nextTok s with
  | .error e => .fail (.lexE e)
  | .ok (tok, s1) =>
    if tok.type = "ident" then .ok tok.value.asStr s1
    else .fail (.parseE "Expected ident")

/-- The parser's `peek()` (lines 263-266): eat whitespace, then look at
the next raw character without consuming it. -/
def peekChar (s : LexState) : Option Char × LexState :=
  let s1 := s.eatWhitespace
  (s1.rem.head?, s1)

/-- `eat(terminal, token)` (lines 283-295): all call sites match on the
`value` property only. -/
def eatValP (v : TokVal) (s : LexState) : PResult Token :=
  match nextTok s with
  | .error e => .fail (.lexE e)
  | .ok (tok, s1) =>
    if tok.value = v then .ok tok s1
    else .fail (.parseE "failed to parse terminal")

/-- Entry points of the mutually recursive parser procedures. -/
inductive PCall where
  | expr
  | arithE (first : Expr)
  | fnCallW (name : String)
  | returnS
  | ifS
  | stmt
  | untilS
  | fnD
  | prog
  deriving DecidableEq, Repr

/-- Results of the parser procedures (one constructor per return type). -/
inductive PVal where
  | e (x : Expr)
  | fc (name : String) (arg : Expr)
  | s (x : St)
  | sts (xs : List St)
  | d (x : FnDef)
  | ds (xs : List FnDef)

/-- The atom node `tok_value` built at line 273. -/
def tokAtom (tok : Token) : Expr :=
  if tok.type = "number" then .num tok.value.asNum else .ident tok.value.asStr

def parseGo : Nat → PCall → LexState → PResult PVal
  | 0, _, _ => .timeout
  | fuel + 1, c, s =>
    match c with
    | .expr =>
      -- expr() (lines 268-281)
      match nextTok s with
      | .error e => .fail (.lexE e)
      | .ok (tok, s1) =>
        if tok.type = "ident" ∨ tok.type = "number" then
          let (pc, s2) := peekChar s1
          if tok.type = "ident" ∧ pc = some '(' then
            match parseGo fuel (.fnCallW tok.value.asStr) s2 with
            | .ok (.fc n a) s3 => .ok (.e (.fnCall n a)) s3
            | .ok _ _ => .fail (.parseE "ice")
            | .fail e => .fail e
            | .timeout => .timeout
          else if pc = some '*' ∨ pc = some '-' ∨ pc = some '<' then
            parseGo fuel (.arithE (tokAtom tok)) s2
          else .ok (.e (tokAtom tok)) s2
        else .fail (.parseE "Expected expr")
    | .arithE first =>
      -- arithExpr(first_tok) (lines 243-261)
      match nextTok s with
      | .error e => .fail (.lexE e)
      | .ok (tok, s1) =>
        if tok.value = .str "*" ∨ tok.value = .str "-" ∨ tok.value = .str "<" then
          let op : Char :=
            if tok.value = .str "*" then '*'
            else if tok.value = .str "-" then '-' else '<'
          match parseGo fuel .expr s1 with
          | .ok (.e right) s2 => .ok (.e (.arith first op right)) s2
          | .ok _ _ => .fail (.parseE "ice")
          | .fail e => .fail e
          | .timeout => .timeout
        else .fail (.parseE "Expected operation")
    | .fnCallW name =>
      -- fnCallWithName(name) (lines 297-306)
      match eatValP (.str "(") s with
      | .fail e => .fail e
      | .timeout => .timeout
      | .ok _ s1 =>
        match parseGo fuel .expr s1 with
        | .ok (.e arg) s2 =>
          match eatValP (.str ")") s2 with
          | .fail e => .fail e
          | .timeout => .timeout
          | .ok _ s3 => .ok (.fc name arg) s3
        | .ok _ _ => .fail (.parseE "ice")
        | .fail e => .fail e
        | .timeout => .timeout
    | .returnS =>
      -- returnSt() (lines 312-319)
      match parseGo fuel .expr s with
      | .ok (.e v) s1 =>
        match eatValP (.str ";") s1 with
        | .fail e => .fail e
        | .timeout => .timeout
        | .ok _ s2 => .ok (.s (.returnSt v)) s2
      | .ok _ _ => .fail (.parseE "ice")
      | .fail e => .fail e
      | .timeout => .timeout
    | .ifS =>
      -- ifSt() (lines 327-339)
      match eatValP (.str "(") s with
      | .fail e => .fail e
      | .timeout => .timeout
      | .ok _ s1 =>
        match parseGo fuel .expr s1 with
        | .ok (.e cond) s2 =>
          match eatValP (.str ")") s2 with
          | .fail e => .fail e
          | .timeout => .timeout
          | .ok _ s3 =>
            match eatValP (.str "\x7b") s3 with
            | .fail e => .fail e
            | .timeout => .timeout
            | .ok _ s4 =>
              match parseGo fuel .untilS s4 with
              | .ok (.sts body) s5 =>
                match eatValP (.str "\x7d") s5 with
                | .fail e => .fail e
                | .timeout => .timeout
                | .ok _ s6 => .ok (.s (.ifSt cond body)) s6
              | .ok _ _ => .fail (.parseE "ice")
              | .fail e => .fail e
              | .timeout => .timeout
        | .ok _ _ => .fail (.parseE "ice")
        | .fail e => .fail e
        | .timeout => .timeout
    | .stmt =>
      -- statement() (lines 341-355)
      match nextTok s with
      | .error e => .fail (.lexE e)
      | .ok (tok, s1) =>
        if tok.type = "keyword" ∨ tok.type = "ident" then
          if tok.value = .str "if" then
            parseGo fuel .ifS s1
          else if tok.value = .str "return" then
            parseGo fuel .returnS s1
          else
            match parseGo fuel (.fnCallW tok.value.asStr) s1 with
            | .ok (.fc n a) s2 =>
              match eatValP (.str ";") s2 with
              | .fail e => .fail e
              | .timeout => .timeout
              | .ok _ s3 => .ok (.s (.fnCallSt n a)) s3
            | .ok _ _ => .fail (.parseE "ice")
            | .fail e => .fail e
            | .timeout => .timeout
        else .fail (.parseE "expected statement")
    | .untilS =>
      -- until('}', statement) (lines 321-325); both call sites pass '}'
      let (pc, s1) := peekChar s
      if pc = some '\x7d' then .ok (.sts []) s1
      else
        match parseGo fuel .stmt s1 with
        | .ok (.s st1) s2 =>
          match parseGo fuel .untilS s2 with
          | .ok (.sts rest) s3 => .ok (.sts (st1 :: rest)) s3
          | .ok _ _ => .fail (.parseE "ice")
          | .fail e => .fail e
          | .timeout => .timeout
        | .ok _ _ => .fail (.parseE "ice")
        | .fail e => .fail e
        | .timeout => .timeout
    | .fnD =>
      -- fnDef() (lines 357-379)
      match identP s with
      | .fail e => .fail e
      | .timeout => .timeout
      | .ok ret_type s1 =>
        match identP s1 with
        | .fail e => .fail e
        | .timeout => .timeout
        | .ok name s2 =>
          match eatValP (.str "(") s2 with
          | .fail e => .fail e
          | .timeout => .timeout
          | .ok _ s3 =>
            let (pc, s4) := peekChar s3
            match
              (if pc = some ')' then
                 (.ok (none, none) s4 : PResult (Option String × Option String))
               else
                 match identP s4 with
                 | .fail e => .fail e
                 | .timeout => .timeout
                 | .ok pt s5 =>
                   match identP s5 with
                   | .fail e => .fail e
                   | .timeout => .timeout
                   | .ok pn s6 => .ok (some pt, some pn) s6) with
            | .fail e => .fail e
            | .timeout => .timeout
            | .ok (pt, pn) s7 =>
              match eatValP (.str ")") s7 with
              | .fail e => .fail e
              | .timeout => .timeout
              | .ok _ s8 =>
                match eatValP (.str "\x7b") s8 with
                | .fail e => .fail e
                | .timeout => .timeout
                | .ok _ s9 =>
                  match parseGo fuel .untilS s9 with
                  | .ok (.sts body) s10 =>
                    match eatValP (.str "\x7d") s10 with
                    | .fail e => .fail e
                    | .timeout => .timeout
                    | .ok _ s11 =>
                      .ok (.d ⟨ret_type, name, pt, pn, body⟩) s11
                  | .ok _ _ => .fail (.parseE "ice")
                  | .fail e => .fail e
                  | .timeout => .timeout
    | .prog =>
      -- program() (lines 381-390)
      if s.atEnd then .ok (.ds []) s
      else
        match parseGo fuel .fnD s with
        | .ok (.d d1) s1 =>
          match parseGo fuel .prog s1 with
          | .ok (.ds rest) s2 => .ok (.ds (d1 :: rest)) s2
          | .ok _ _ => .fail (.parseE "ice")
          | .fail e => .fail e
          | .timeout => .timeout
        | .ok _ _ => .fail (.parseE "ice")
        | .fail e => .fail e
        | .timeout => .timeout

/-- Fuel sufficient for any input (established by `parserNoTimeout`). -/
def parseFuel (text : List Char) : Nat := 2 * text.length + 4

/-- Fuel needed by each parser entry point on a state with `n`
characters left (see `parserNoTimeout`): the constants order the entry
points so that every zero-consumption call (program to fnDef, until to
statement, returnSt to expr) strictly decreases the cost while every
other call has consumed at least one character first. -/
def costC : PCall → Nat
  | .expr => 1
  | .arithE _ => 2
  | .fnCallW _ => 2
  | .returnS => 2
  | .stmt => 2
  | .ifS => 3
  | .untilS => 4
  | .fnD => 3
  | .prog => 4

/-- Entry points guaranteed to consume at least one character when they
succeed (used for the two parser loops). -/
def strictC : PCall → Bool
  | .stmt => true
  | .fnD => true
  | _ => false

/-- `parse(lexer)`: run `program()` on a fresh lexer over `text`. -/
def parse (text : List Char) : PResult Program :=
  match parseGo (parseFuel text) .prog (mkLexState text) with
  | .ok (.ds ds) s => .ok ⟨ds.map .fnDef⟩ s
  | .ok _ _ => .fail (.parseE "ice")
  | .fail e => .fail e
  | .timeout => .timeout

/-! ## Interpreter (class Interpreter, src/adso.js lines 18-213)

Bindings are the values stored in scopes and on the operand stack: value
objects tagged `int` or `bool`, user `FnDef` nodes, and the built-in
`print` object.  The stack holds `Option Binding` because popping the
empty JS array yields `undefined`, which the source then pushes back
(line 196-197); `none` models that `undefined`. -/

inductive Binding where
  | intV (n : Int)
  | boolV (b : Bool)
  | fnDef (d : FnDef)
  | builtin (param_type : Option String)

/-- The JS `type` tag of a binding. -/
def Binding.type : Binding → String
  | .intV _ => "int"
  | .boolV _ => "bool"
  | .fnDef _ => "FnDef"
  | .builtin _ => "BuiltInFn"

/-- The `param_type` property read by `checkType`; reading it off a
value object yields `undefined`, modelled `none`. -/
def Binding.paramType : Binding → Option String
  | .fnDef d => d.param_type
  | .builtin pt => pt
  | _ => none

/-- The `param_name` property used as the key of the argument binding
(line 177).  A user function without parameter has `param_name: null`
and the built-in object has no such property at all; JS coerces those
keys to the strings "null" and "undefined".  Both cases are unreachable
because `checkType` rejects an argument they would require. -/
def Binding.paramNameKey : Binding → String
  | .fnDef d => d.param_name.getD "null"
  | _ => "undefined"

/-- One scope's `bindings` table.  JS object properties: insertion
overwrites, lookup of an absent key yields `undefined`. -/
abbrev Frame := List (String × Binding)

def frameGet (n : String) : Frame → Option Binding
  | [] => none
  | (k, v) :: rest => if k = n then some v else frameGet n rest

def frameSet (n : String) (b : Binding) : Frame → Frame
  | [] => [(n, b)]
  | (k, v) :: rest => if k = n then (n, b) :: rest else (k, v) :: frameSet n b rest

/-- The scope chain: head is the current scope, the tail the chain of
`up` links.  The constructor's scope (lines 20-28) is the root. -/
abbrev ScopeChain := List Frame

/-- `pushScope` (lines 32-38): the fresh scope's `up` is whatever scope
is current at the moment of the call (the `if (this.scope)` guard is
always true, since the constructor installs a root scope). -/
def pushScope (sc : ScopeChain) : ScopeChain := [] :: sc

/-- `popScope` (lines 40-42). -/
def popScope (sc : ScopeChain) : ScopeChain := sc.tail

/-- `lookup` (lines 151-160): search the current scope, then each `up`
in turn; `none` models the `InterpreterError` thrown when no scope
binds the name. -/
def lookup (n : String) : ScopeChain → Option Binding
  | [] => none
  | f :: up =>
    match frameGet n f with
    | some b => some b
    | none => lookup n up

/-- `this.scope.bindings[name] = b`: write into the current scope. -/
def defineCurrent (n : String) (b : Binding) : ScopeChain → ScopeChain
  | [] => []
  | f :: up => frameSet n b f :: up

/-- The interpreter's mutable state: scope chain, operand stack (head is
the top) and the lines printed so far. -/
structure IState where
  scope : ScopeChain
  stack : List (Option Binding)
  output : List String

/-- `this.stack.pop()`: yields `undefined` on the empty array. -/
def popStack (stk : List (Option Binding)) : Option Binding × List (Option Binding) :=
  match stk with
  | [] => (none, [])
  | x :: rest => (x, rest)

def push (v : Option Binding) (st : IState) : IState :=
  { st with stack := v :: st.stack }

/-- A thrown JS exception: an `InterpreterError` (or engine error such
as a failed `assert` or a property access on `undefined`), or the
`ReturnValue` carrier thrown by `visitReturnSt`. -/
inductive Exc where
  | err (msg : String)
  | ret (v : Option Binding)

/-- Outcome of a visit: normal completion, an exception carrying the
state at the moment of the throw (JS state is mutable, so the handler
sees it), or fuel exhaustion of the model. -/
inductive IResult where
  | ok (s : IState)
  | exc (e : Exc) (s : IState)
  | timeout

/-- `checkType` (lines 111-124).  `some msg` models a throw.  With both
the parameter type and the argument absent the source reaches
`argValue.type` on `undefined` and crashes; that case is unreachable
from `visitFnCall`, whose guard skips the check. -/
def checkType (f : Binding) (argValue : Option Binding) : Option String :=
  match f.paramType, argValue with
  | none, some _ => some "no arg expected"
  | some _, none => some "no fn arg given"
  | some t, some v => if t ≠ v.type then some "type mismatch" else none
  | none, none => some "crash undefined.type"

/-- `console.log(obj.value)` inside the built-in `print` (lines 24-26):
the printed line for a binding.  A `bool` value prints true/false; a
`FnDef` node has no `value` property and would print undefined; the
built-in's `value` is the callback function itself.  Only the `int`
case is reachable: `checkType` has already matched the argument against
`print`'s declared `int` parameter. -/
def printLineOf : Binding → String
  | .intV n => toString n
  | .boolV b => if b then "true" else "false"
  | .fnDef _ => "undefined"
  | .builtin _ => "function"

/-- Lines 193-197: `popScope()`, then pop the return value and push it
back.  On an empty stack the pop yields `undefined` and the push stores
it, so the stack never shrinks below its size at the pop. -/
def finishCall (st : IState) : IResult :=
  let st1 := { st with scope := popScope st.scope }
  let (rv, stk) := popStack st1.stack
  .ok { st1 with stack := rv :: stk }

/-- Entry points of the mutually recursive visit methods. -/
inductive VCall where
  | expr (e : Expr)
  | arith (left : Expr) (op : Char) (right : Expr)
  | fnCall (name : String) (arg : Option Expr)
  | callB (f : Binding) (argValue : Option Binding) (argPresent : Bool)
  | st (s : St)
  | retSt (value : Expr)
  | ifS (condition : Expr) (body : List St)
  | body (sts : List St)

/-- The evaluator.  Each constructor of `VCall` is one method of the
source; fuel decreases at every nested visit, making the recursion
structural (JS recursion depth is bounded by the engine's call stack,
which the fuel models).

`.callB` is the tail of `visitFnCall` from `pushScope()` on (lines
175-197): push a scope, bind the argument if one was present, run the
user body catching the `ReturnValue` carrier — or invoke the built-in
callback — then pop the scope and re-push the result.  Binding an
`undefined` argument value under the parameter key behaves exactly like
not binding it (lookup treats an undefined property as absent), so the
binding is only written when a value is present. -/
def visitGo : Nat → VCall → IState → IResult
  | 0, _, _ => .timeout
  | fuel + 1, c, st =>
    match c with
    | .expr e =>
      -- visitExpr (lines 89-105)
      match e with
      | .num n => .ok (push (some (.intV (n : Int))) st)
      | .ident name =>
        match lookup name st.scope with
        | some b => .ok (push (some b) st)
        | none => .exc (.err "is unbound") st
      | .fnCall n a => visitGo fuel (.fnCall n (some a)) st
      | .arith l op r => visitGo fuel (.arith l op r) st
    | .arith left op right =>
      -- visitArithExpr (lines 44-87)
      match
        (match left with
         | .num n => .ok (n : Int)
         | .ident name =>
           match lookup name st.scope with
           | some (.intV n) => .ok n
           | some _ => .error "bad binding"
           | none => .error "is unbound"
         | _ => .error "bad left" : Except String Int) with
      | .error m => .exc (.err m) st
      | .ok leftValue =>
        match visitGo fuel (.expr right) st with
        | .ok st1 =>
          let (rv, stk) := popStack st1.stack
          let st2 := { st1 with stack := stk }
          match rv with
          | some (.intV rightValue) =>
            if op = '<' then
              .ok (push (some (.boolV (decide (leftValue < rightValue)))) st2)
            else if op = '*' then
              .ok (push (some (.intV (jsMul leftValue rightValue))) st2)
            else if op = '-' then
              .ok (push (some (.intV (jsSub leftValue rightValue))) st2)
            else
              -- the switch has no default: nothing is pushed
              .ok st2
          | _ => .exc (.err "assertion error right") st2
        | other => other
    | .fnCall name arg =>
      -- visitFnCall (lines 162-198), up to the checkType call
      match lookup name st.scope with
      | none => .exc (.err "is unbound") st
      | some f =>
        if f.type = "BuiltInFn" ∨ f.type = "FnDef" then
          match arg with
          | some a =>
            match visitGo fuel (.expr a) st with
            | .ok st1 =>
              let (argValue, stk) := popStack st1.stack
              let st2 := { st1 with stack := stk }
              -- fnCall.arg is present, so the check always runs
              match checkType f argValue with
              | some m => .exc (.err m) st2
              | none => visitGo fuel (.callB f argValue true) st2
            | other => other
          | none =>
            -- no argument: the check runs only if a parameter is declared
            if f.paramType.isSome then
              match checkType f none with
              | some m => .exc (.err m) st
              | none => visitGo fuel (.callB f none false) st
            else visitGo fuel (.callB f none false) st
        else .exc (.err "not a function") st
    | .callB f argValue argPresent =>
      let scope1 := pushScope st.scope
      let scope2 :=
        match argPresent, argValue with
        | true, some b => defineCurrent f.paramNameKey b scope1
        | _, _ => scope1
      let st1 := { st with scope := scope2 }
      match f with
      | .fnDef d =>
        match visitGo fuel (.body d.body) st1 with
        | .ok st2 => finishCall st2
        | .exc (.ret v) st2 => finishCall (push v st2)
        | .exc (.err m) st2 => .exc (.err m) st2
        | .timeout => .timeout
      | .builtin _ =>
        -- assert(fnDef.type === 'BuiltInFn'); fnDef.value(argValue)
        match argValue with
        | some v => finishCall { st1 with output := st1.output ++ [printLineOf v] }
        | none => .exc (.err "crash undefined.value") st1
      | _ => .exc (.err "assertion error BuiltInFn") st1
    | .st s =>
      -- visitSt (lines 143-149)
      match s with
      | .ifSt cond body => visitGo fuel (.ifS cond body) st
      | .returnSt v => visitGo fuel (.retSt v) st
      | .fnCallSt n a => visitGo fuel (.fnCall n (some a)) st
    | .retSt value =>
      -- visitReturnSt (lines 126-129)
      match visitGo fuel (.expr value) st with
      | .ok st1 =>
        let (rv, stk) := popStack st1.stack
        .exc (.ret rv) { st1 with stack := stk }
      | other => other
    | .ifS condition body =>
      -- visitIfSt (lines 131-141)
      match visitGo fuel (.expr condition) st with
      | .ok st1 =>
        let (cv, stk) := popStack st1.stack
        let st2 := { st1 with stack := stk }
        match cv with
        | some (.boolV b) => if b then visitGo fuel (.body body) st2 else .ok st2
        | some _ => .exc (.err "if condition not bool") st2
        | none => .exc (.err "crash undefined.type") st2
      | other => other
    | .body sts =>
      -- body.forEach((node) => this.visitSt(node))
      match sts with
      | [] => .ok st
      | s1 :: rest =>
        match visitGo fuel (.st s1) st with
        | .ok st1 => visitGo fuel (.body rest) st1
        | other => other

/-- `visitExpr`. -/
def visitExpr (fuel : Nat) (e : Expr) (st : IState) : IResult :=
  visitGo fuel (.expr e) st

/-- `visitArithExpr`. -/
def visitArithExpr (fuel : Nat) (l : Expr) (op : Char) (r : Expr) (st : IState) : IResult :=
  visitGo fuel (.arith l op r) st

/-- `visitFnCall`. -/
def visitFnCall (fuel : Nat) (name : String) (arg : Option Expr) (st : IState) : IResult :=
  visitGo fuel (.fnCall name arg) st

/-- The tail of `visitFnCall` from `pushScope()` on (lines 175-197). -/
def callBody (fuel : Nat) (f : Binding) (argValue : Option Binding)
    (argPresent : Bool) (st : IState) : IResult :=
  visitGo fuel (.callB f argValue argPresent) st

/-- `visitSt`. -/
def visitSt (fuel : Nat) (s : St) (st : IState) : IResult :=
  visitGo fuel (.st s) st

/-- `visitReturnSt`. -/
def visitReturnSt (fuel : Nat) (v : Expr) (st : IState) : IResult :=
  visitGo fuel (.retSt v) st

/-- `visitIfSt`. -/
def visitIfSt (fuel : Nat) (c : Expr) (b : List St) (st : IState) : IResult :=
  visitGo fuel (.ifS c b) st

/-- The `forEach` over a statement body. -/
def visitBody (fuel : Nat) (sts : List St) (st : IState) : IResult :=
  visitGo fuel (.body sts) st

/-- `visitFnDef` (lines 107-109): define the function in the current
scope. -/
def visitFnDef (d : FnDef) (st : IState) : IState :=
  { st with scope := defineCurrent d.name (.fnDef d) st.scope }

/-- `visit(ast, visitor)` (lines 201-208): dispatch each top-level node;
an exception escaping a top-level call aborts the walk. -/
def visitTop (fuel : Nat) : List TopNode → IState → IResult
  | [], st => .ok st
  | n :: rest, st =>
    match n with
    | .fnDef d => visitTop fuel rest (visitFnDef d st)
    | .fnCall name arg =>
      match visitFnCall fuel name arg st with
      | .ok st1 => visitTop fuel rest st1
      | other => other

/-- The interpreter constructor's state (lines 19-30): a root scope
holding the built-in `print` (declared parameter type `int`) and an
empty stack. -/
def initState : IState :=
  ⟨[[("print", .builtin (some "int"))]], [], []⟩

/-- `ast.body.push({type:'FnCall', name:'main', arg:null})` (line 211):
the program's body after `interpret` has mutated it. -/
def interpretedBody (p : Program) : List TopNode :=
  p.body ++ [.fnCall "main" none]

/-- `interpret(ast)` (lines 210-213). -/
def interpret (fuel : Nat) (p : Program) : IResult :=
  visitTop fuel (interpretedBody p) initState

/-- The full pipeline on a text: lex+parse, then evaluate; `some lines`
when both phases complete normally, `none` on any error (or on fuel
exhaustion of the evaluator model). -/
def run (fuel : Nat) (text : List Char) : Option (List String) :=
  match parse text with
  | .ok p _ =>
    match interpret fuel p with
    | .ok st => some st.output
    | _ => none
  | _ => none

/-! ## Concrete fixtures used by the claim theorems -/

/-- The factorial program of the specification's test property. -/
def factText : String :=
  "int fact(int n) \x7b if (n < 1) \x7b return 1; \x7d return n * fact(n - 1); \x7d void main() \x7b print(fact(5)); \x7d"

/-- A program whose inner call reads a name bound only by an
intermediate caller: `g` has no binding for `x`, the root has none
either, but `f` — between them on the dynamic chain — does. -/
def dynScopeText : String :=
  "int g(int y) \x7b return x; \x7d int f(int x) \x7b return g(0); \x7d void main() \x7b print(f(7)); \x7d"

/-- A user function `int f(int x)` that immediately returns its
argument. -/
def retArgFn : FnDef :=
  ⟨"int", "f", some "int", some "x", [.returnSt (.ident "x")]⟩

/-- A parameterless user function whose body returns `2`. -/
def retTwoFn : FnDef :=
  ⟨"int", "h", none, none, [.returnSt (.num 2)]⟩

/-- An empty `void main()`. -/
def emptyMainFn : FnDef :=
  ⟨"void", "main", none, none, []⟩

/-- A root-like scope binding `f`, `h`, `main` and the built-in. -/
def fixtureScope : ScopeChain :=
  [[("f", .fnDef retArgFn), ("h", .fnDef retTwoFn),
    ("main", .fnDef emptyMainFn), ("print", .builtin (some "int"))]]

def fixtureState : IState := ⟨fixtureScope, [], []⟩

/-! ## Claim theorems -/

/-- Claim C1: for the two-function factorial program, running the full
pipeline — lex, parse, evaluate with the synthesized zero-argument call
to `main` — produces exactly one output line `120` and terminates
without error. -/
theorem factorial_pipeline_prints_120 : run 1000 factText.data = some ["120"] := by
  rfl

/-- Claim C8 (supporting theorem): lexing the 21-digit run
`100000000000000000001`, which does not fit a native integer exactly,
does NOT fail with a `LexError`: `parseInt` never throws, so `next`
emits a `number` token silently carrying the nearest double
`100000000000000000000`, a value different from the digits written. -/
theorem lexer_rounds_huge_number_silently :
    nextTok (mkLexState "100000000000000000001".data) =
      .ok (⟨"number", .num 100000000000000000000, 1, 22⟩, ⟨[], 1, 22⟩) ∧
    (100000000000000000000 : Nat) ≠ 100000000000000000001 := by
  exact ⟨by rfl, by decide⟩

/-- Claim C3 counterexample: the identifier expression `print` resolves
to the built-in function binding, yet `visitExpr` completes normally and
pushes that binding onto the operand stack — no `TypeError` is
raised. -/
theorem ident_resolving_to_builtin_is_pushed :
    visitExpr 1 (.ident "print") initState =
      .ok ⟨[[("print", .builtin (some "int"))]],
            [some (.builtin (some "int"))], []⟩ := by
  rfl

/-- Claim C3 amended: an identifier expression pushes whatever binding
the scope lookup returns — including a user function definition or a
built-in — without any type check; a `TypeError` can only arise later,
at a consumer that inspects the tag. -/
theorem ident_pushes_any_binding (fuel : Nat) (name : String) (st : IState)
    (b : Binding) (h : lookup name st.scope = some b) :
    visitExpr (fuel + 1) (.ident name) st = .ok (push (some b) st) := by
  simp only [visitExpr, visitGo, h]

/-- Witness for `ident_pushes_any_binding`: the name `main` resolving to
a user function definition. -/
theorem ident_pushes_any_binding_witness :
    visitExpr 1 (.ident "main") fixtureState =
      .ok (push (some (.fnDef emptyMainFn)) fixtureState) :=
  ident_pushes_any_binding 0 "main" fixtureState (.fnDef emptyMainFn) rfl

/-- Claim C5 counterexample: the empty text parses to the empty program,
and after `interpret` has pushed the synthesized `main` call the
program's body is no longer the one the parser returned. -/
theorem interpret_mutates_empty_program :
    parse "".data = .ok ⟨[]⟩ ⟨[], 1, 1⟩ ∧
    interpretedBody ⟨[]⟩ ≠ (Program.mk []).body := by
  refine ⟨rfl, ?_⟩
  simp [interpretedBody]

/-- Claim C5 amended: `interpret` mutates the `Program` node by
appending the synthesized zero-argument `main` call to its body — so
the body after `interpret` never equals the parsed one — but that
append is the only change: the parsed function definitions survive as
an exact prefix. -/
theorem interpret_only_appends_main_call (p : Program) :
    interpretedBody p ≠ p.body ∧
    (interpretedBody p).take p.body.length = p.body := by
  constructor
  · intro h
    have := congrArg List.length h
    simp [interpretedBody] at this
  · simp [interpretedBody]

/-- Claim C2 counterexample: in `dynScopeText`, the body of `g` reads
`x`, which is bound neither in `g`'s call scope nor in the root scope —
under the claim the lookup must fail — yet the program runs without
error and prints `7`, the binding of the intermediate caller `f`. -/
theorem lookup_reaches_intermediate_caller :
    run 1000 dynScopeText.data = some ["7"] := by
  rfl

/-- Claim C2 amended: `pushScope` chains the fresh call scope to the
scope current at the moment of the call — the caller's scope, not the
scope current when the interpreter was constructed — so a lookup that
misses the callee's own scope walks the whole dynamic chain and can
resolve to a binding local to an intermediate caller's activation
before ever reaching the root. -/
theorem pushed_scope_chains_to_caller :
    (∀ sc : ScopeChain, pushScope sc = [] :: sc) ∧
    (∀ (name : String) (frames : List Frame) (fr : Frame) (rest : ScopeChain)
       (b : Binding),
      (∀ g ∈ frames, frameGet name g = none) → frameGet name fr = some b →
      lookup name (frames ++ fr :: rest) = some b) := by
  refine ⟨fun _ => rfl, fun name frames fr rest b hmiss hhit => ?_⟩
  induction frames with
  | nil => simp [lookup, hhit]
  | cons g gs ih =>
    have hg : frameGet name g = none := hmiss g (by simp)
    simp only [List.cons_append, lookup, hg]
    exact ih fun g2 hg2 => hmiss g2 (by simp [hg2])

/-- Witness for `pushed_scope_chains_to_caller`: a lookup of `x` that
misses the callee's scope and one further activation, then resolves in
an intermediate caller's frame without ever reaching the root. -/
theorem pushed_scope_chains_to_caller_witness :
    pushScope [] = [[]] ∧
    lookup "x" [[], [], [("x", .intV 7)], []] = some (.intV 7) :=
  ⟨pushed_scope_chains_to_caller.1 [],
   pushed_scope_chains_to_caller.2 "x" [[], []] [("x", .intV 7)] [[]] (.intV 7)
     (by intro g hg; simp at hg; subst hg; rfl) rfl⟩

/-- Claim C4 counterexample: executing the statement `f(1);` (where
`int f(int x)` returns its argument) from an empty operand stack
completes without error and leaves the call's result on the stack: the
stack after the statement is `[1]`, not the empty stack it started
from. -/
theorem fncall_statement_leaves_result :
    visitSt 10 (.fnCallSt "f" (.num 1)) fixtureState =
      .ok ⟨fixtureScope, [some (.intV 1)], []⟩ ∧
    [some (Binding.intV 1)] ≠ fixtureState.stack := by
  exact ⟨by rfl, by simp [fixtureState]⟩

/-- Claim C4 amended: a statement-position function call does not
discard the call's result.  `visitSt` delegates a `FnCallSt` to
`visitFnCall` unchanged, and for the call shape a statement can take —
the statement's mandatory argument matching the callee's declared
parameter — when the callee's body exits through a `return` carrying
`v`, the operand stack after the statement is the stack at the moment
of the return with `v` pushed on top (the final pop/re-push of lines
196-197 leaves it in place), so in general it differs from the stack
before the statement. -/
theorem fncall_statement_keeps_result :
    (∀ (fuel : Nat) (n : String) (a : Expr) (st : IState),
       visitSt (fuel + 1) (.fnCallSt n a) st = visitFnCall fuel n (some a) st) ∧
    (∀ (fuel : Nat) (st : IState) (name : String) (a : Expr) (d : FnDef)
       (t : String) (stA : IState) (b : Binding) (stk : List (Option Binding))
       (v : Option Binding) (s1 : IState),
       lookup name st.scope = some (.fnDef d) →
       d.param_type = some t →
       visitExpr (fuel + 1) a st = .ok stA →
       popStack stA.stack = (some b, stk) →
       b.type = t →
       visitBody fuel d.body
           ⟨[(d.param_name.getD "null", b)] :: stA.scope, stk, stA.output⟩ =
         .exc (.ret v) s1 →
       visitSt (fuel + 3) (.fnCallSt name a) st =
         .ok ⟨popScope s1.scope, v :: s1.stack, s1.output⟩) := by
  constructor
  · intro fuel n a st
    rfl
  · intro fuel st name a d t stA b stk v s1 hlook hparam ha hpop htype hbody
    simp only [visitExpr] at ha
    simp only [visitBody, Binding.paramNameKey] at hbody
    show visitGo (fuel + 2) (.fnCall name (some a)) st = _
    rw [visitGo, hlook]
    simp only [Binding.type, or_true, if_true]
    rw [ha]
    simp only [hpop, checkType, Binding.paramType, hparam, htype, ne_eq,
      not_true_eq_false, if_false, reduceCtorEq, ite_false]
    rw [visitGo]
    simp only [pushScope, defineCurrent, frameSet, Binding.paramNameKey, hbody,
      finishCall, push, popScope, popStack]

/-- Witness for `fncall_statement_keeps_result`: the statement `f(1);`
(with `int f(int x)` returning `x`) delegates to the call and completes
with `1` left on the previously empty operand stack. -/
theorem fncall_statement_keeps_result_witness :
    visitSt 8 (.fnCallSt "f" (.num 1)) fixtureState =
      visitFnCall 7 "f" (some (.num 1)) fixtureState ∧
    visitSt 8 (.fnCallSt "f" (.num 1)) fixtureState =
      .ok ⟨fixtureScope, [some (.intV 1)], []⟩ := by
  refine ⟨fncall_statement_keeps_result.1 7 "f" (.num 1) fixtureState, ?_⟩
  exact fncall_statement_keeps_result.2 5 fixtureState "f" (.num 1) retArgFn
    "int" ⟨fixtureScope, [some (.intV 1)], []⟩ (.intV 1) [] (some (.intV 1))
    ⟨[("x", .intV 1)] :: fixtureScope, [], []⟩
    rfl rfl (by rfl) rfl rfl (by rfl)

/-- Claim C6: a `ReturnSt` raises a carrier that (1) short-circuits the
remaining statements of the body it occurs in, (2) propagates out of an
enclosing `if` body, and (3) is consumed at the function-call boundary:
the carried value becomes the call's result on the operand stack, the
callee's scope is popped before the result is yielded, and the carrier
does not escape (the call returns normally). -/
theorem return_short_circuits_to_call_boundary :
    (∀ (fuel : Nat) (stx : St) (rest : List St) (st : IState)
       (v : Option Binding) (s1 : IState),
       visitSt fuel stx st = .exc (.ret v) s1 →
       visitBody (fuel + 1) (stx :: rest) st = .exc (.ret v) s1) ∧
    (∀ (fuel : Nat) (cond : Expr) (body : List St) (st st1 : IState)
       (stk : List (Option Binding)) (v : Option Binding) (s1 : IState),
       visitExpr fuel cond st = .ok st1 →
       popStack st1.stack = (some (.boolV true), stk) →
       visitBody fuel body { st1 with stack := stk } = .exc (.ret v) s1 →
       visitIfSt (fuel + 1) cond body st = .exc (.ret v) s1) ∧
    (∀ (fuel : Nat) (st : IState) (name : String) (a : Expr) (d : FnDef)
       (t : String) (stA : IState) (b : Binding) (stk : List (Option Binding))
       (v : Option Binding) (s1 : IState),
       lookup name st.scope = some (.fnDef d) →
       d.param_type = some t →
       visitExpr (fuel + 1) a st = .ok stA →
       popStack stA.stack = (some b, stk) →
       b.type = t →
       visitBody fuel d.body
           ⟨[(d.param_name.getD "null", b)] :: stA.scope, stk, stA.output⟩ =
         .exc (.ret v) s1 →
       visitFnCall (fuel + 2) name (some a) st =
         .ok ⟨popScope s1.scope, v :: s1.stack, s1.output⟩) := by
  refine ⟨?_, ?_, ?_⟩
  · intro fuel stx rest st v s1 h
    simp only [visitSt] at h
    simp only [visitBody]
    rw [visitGo, h]
  · intro fuel cond body st st1 stk v s1 hc hpop hb
    simp only [visitExpr] at hc
    simp only [visitBody] at hb
    simp only [visitIfSt]
    rw [visitGo, hc]
    simp only [hpop, if_true, hb]
  · intro fuel st name a d t stA b stk v s1 hlook hparam ha hpop htype hbody
    simp only [visitExpr] at ha
    simp only [visitBody, Binding.paramNameKey] at hbody
    simp only [visitFnCall]
    rw [visitGo, hlook]
    simp only [Binding.type, or_true, if_true]
    rw [ha]
    simp only [hpop, checkType, Binding.paramType, hparam, htype, ne_eq,
      not_true_eq_false, if_false, reduceCtorEq, ite_false]
    rw [visitGo]
    simp only [pushScope, defineCurrent, frameSet, Binding.paramNameKey, hbody,
      finishCall, push, popScope, popStack]

/-- Witness for `return_short_circuits_to_call_boundary`: `return 2;`
short-circuits a following statement, propagates out of `if (0 < 1)`,
and `f(1)` (with `int f(int x)` returning `x`) consumes the carrier at
the call boundary. -/
theorem return_short_circuits_witness :
    visitBody 4 [.returnSt (.num 2), .returnSt (.num 3)] fixtureState =
      .exc (.ret (some (.intV 2))) fixtureState ∧
    visitIfSt 6 (.arith (.num 0) '<' (.num 1)) [.returnSt (.num 2)] fixtureState =
      .exc (.ret (some (.intV 2))) fixtureState ∧
    visitFnCall 7 "f" (some (.num 1)) fixtureState =
      .ok ⟨fixtureScope, [some (.intV 1)], []⟩ := by
  refine ⟨?_, ?_, ?_⟩
  · exact return_short_circuits_to_call_boundary.1 3 (.returnSt (.num 2))
      [.returnSt (.num 3)] fixtureState (some (.intV 2)) fixtureState (by rfl)
  · exact return_short_circuits_to_call_boundary.2.1 5
      (.arith (.num 0) '<' (.num 1)) [.returnSt (.num 2)] fixtureState
      ⟨fixtureScope, [some (.boolV true)], []⟩ [] (some (.intV 2)) fixtureState
      (by rfl) rfl (by rfl)
  · exact return_short_circuits_to_call_boundary.2.2 5 fixtureState "f"
      (.num 1) retArgFn "int" ⟨fixtureScope, [some (.intV 1)], []⟩
      (.intV 1) [] (some (.intV 1))
      ⟨[("x", .intV 1)] :: fixtureScope, [], []⟩
      rfl rfl (by rfl) rfl rfl (by rfl)

/-- Claim C7: argument acceptance at a call.  With the callee resolved
to a callable binding: a call without argument to a callee without
declared parameter proceeds straight to the body phase; a call with an
argument to a one-parameter callee proceeds if and only if the argument
value's type tag equals the declared parameter type, and otherwise
fails before the body or native callback runs; supplying an argument to
a zero-parameter callee, or omitting the argument of a one-parameter
callee, fails likewise before the body phase. -/
theorem call_argument_acceptance :
    (∀ (fuel : Nat) (name : String) (st : IState) (f : Binding),
       lookup name st.scope = some f →
       (f.type = "BuiltInFn" ∨ f.type = "FnDef") →
       f.paramType = none →
       visitFnCall (fuel + 1) name none st = callBody fuel f none false st) ∧
    (∀ (fuel : Nat) (name : String) (a : Expr) (st : IState) (f : Binding)
       (t : String) (stA : IState) (b : Binding) (stk : List (Option Binding)),
       lookup name st.scope = some f →
       (f.type = "BuiltInFn" ∨ f.type = "FnDef") →
       f.paramType = some t →
       visitExpr fuel a st = .ok stA →
       popStack stA.stack = (some b, stk) →
       b.type = t →
       visitFnCall (fuel + 1) name (some a) st =
         callBody fuel f (some b) true { stA with stack := stk }) ∧
    (∀ (fuel : Nat) (name : String) (a : Expr) (st : IState) (f : Binding)
       (t : String) (stA : IState) (b : Binding) (stk : List (Option Binding)),
       lookup name st.scope = some f →
       (f.type = "BuiltInFn" ∨ f.type = "FnDef") →
       f.paramType = some t →
       visitExpr fuel a st = .ok stA →
       popStack stA.stack = (some b, stk) →
       b.type ≠ t →
       visitFnCall (fuel + 1) name (some a) st =
         .exc (.err "type mismatch") { stA with stack := stk }) ∧
    (∀ (fuel : Nat) (name : String) (a : Expr) (st : IState) (f : Binding)
       (stA : IState) (b : Binding) (stk : List (Option Binding)),
       lookup name st.scope = some f →
       (f.type = "BuiltInFn" ∨ f.type = "FnDef") →
       f.paramType = none →
       visitExpr fuel a st = .ok stA →
       popStack stA.stack = (some b, stk) →
       visitFnCall (fuel + 1) name (some a) st =
         .exc (.err "no arg expected") { stA with stack := stk }) ∧
    (∀ (fuel : Nat) (name : String) (st : IState) (f : Binding) (t : String),
       lookup name st.scope = some f →
       (f.type = "BuiltInFn" ∨ f.type = "FnDef") →
       f.paramType = some t →
       visitFnCall (fuel + 1) name none st = .exc (.err "no fn arg given") st) := by
  refine ⟨?_, ?_, ?_, ?_, ?_⟩
  · intro fuel name st f hlook hcall hpt
    simp only [visitFnCall]
    rw [visitGo]
    simp only [hlook]
    rw [if_pos hcall]
    simp only [hpt, Option.isSome_none, Bool.false_eq_true, if_false, callBody]
  · intro fuel name a st f t stA b stk hlook hcall hpt ha hpop htype
    simp only [visitExpr] at ha
    simp only [visitFnCall]
    rw [visitGo]
    simp only [hlook]
    rw [if_pos hcall]
    simp only [ha, hpop, checkType, hpt, htype, ne_eq, eq_self_iff_true,
      not_true, if_false, reduceCtorEq, ite_false, callBody]
  · intro fuel name a st f t stA b stk hlook hcall hpt ha hpop htype
    simp only [visitExpr] at ha
    simp only [visitFnCall]
    rw [visitGo]
    simp only [hlook]
    rw [if_pos hcall]
    simp only [ha, hpop, checkType, hpt]
    rw [if_pos (show t ≠ b.type from fun h => htype h.symm)]
  · intro fuel name a st f stA b stk hlook hcall hpt ha hpop
    simp only [visitExpr] at ha
    simp only [visitFnCall]
    rw [visitGo]
    simp only [hlook]
    rw [if_pos hcall]
    simp only [ha, hpop, checkType, hpt]
  · intro fuel name st f t hlook hcall hpt
    simp only [visitFnCall]
    rw [visitGo]
    simp only [hlook]
    rw [if_pos hcall]
    simp only [hpt, Option.isSome_some, if_true, checkType]

/-- Witness for `call_argument_acceptance`: the five cases at concrete
calls — `h()` (void call), `f(1)` (matching `int`), `f(0 < 1)` (a
`bool` argument for an `int` parameter), `h(1)` (argument to a
zero-parameter callee) and `f()` (missing argument). -/
theorem call_argument_acceptance_witness :
    visitFnCall 7 "h" none fixtureState =
      callBody 6 (.fnDef retTwoFn) none false fixtureState ∧
    visitFnCall 7 "f" (some (.num 1)) fixtureState =
      callBody 6 (.fnDef retArgFn) (some (.intV 1)) true fixtureState ∧
    visitFnCall 7 "f" (some (.arith (.num 0) '<' (.num 1))) fixtureState =
      .exc (.err "type mismatch") fixtureState ∧
    visitFnCall 7 "h" (some (.num 1)) fixtureState =
      .exc (.err "no arg expected") fixtureState ∧
    visitFnCall 7 "f" none fixtureState = .exc (.err "no fn arg given") fixtureState := by
  refine ⟨?_, ?_, ?_, ?_, ?_⟩
  · exact call_argument_acceptance.1 6 "h" fixtureState (.fnDef retTwoFn)
      rfl (Or.inr rfl) rfl
  · exact call_argument_acceptance.2.1 6 "f" (.num 1) fixtureState
      (.fnDef retArgFn) "int" ⟨fixtureScope, [some (.intV 1)], []⟩
      (.intV 1) [] rfl (Or.inr rfl) rfl (by rfl) rfl rfl
  · exact call_argument_acceptance.2.2.1 6 "f" (.arith (.num 0) '<' (.num 1))
      fixtureState (.fnDef retArgFn) "int"
      ⟨fixtureScope, [some (.boolV true)], []⟩ (.boolV true) []
      rfl (Or.inr rfl) rfl (by rfl) rfl (by decide)
  · exact call_argument_acceptance.2.2.2.1 6 "h" (.num 1) fixtureState
      (.fnDef retTwoFn) ⟨fixtureScope, [some (.intV 1)], []⟩ (.intV 1) []
      rfl (Or.inr rfl) rfl (by rfl) rfl
  · exact call_argument_acceptance.2.2.2.2 6 "f" fixtureState
      (.fnDef retArgFn) "int" rfl (Or.inr rfl) rfl

/-- The lexer never emits an `ident`-kind token whose value is a
reserved word: an exact-match letter run is classified `keyword`. -/
theorem nextTok_ident_not_reserved (s : LexState) (tok : Token) (s1 : LexState)
    (h : nextTok s = .ok (tok, s1)) (hty : tok.type = "ident") :
    tok.value.asStr ≠ "if" ∧ tok.value.asStr ≠ "return" := by
  simp only [nextTok] at h
  rcases hrem : s.eatWhitespace.rem with _ | ⟨c, rest⟩ <;> rw [hrem] at h
  · simp only [Except.ok.injEq, Prod.mk.injEq] at h
    obtain ⟨h1, _⟩ := h
    subst h1
    simp at hty
  · simp only at h
    split_ifs at h with h1 h2 h3 h4
    · simp only [Except.ok.injEq, Prod.mk.injEq] at h
      obtain ⟨h5, _⟩ := h
      subst h5
      simp at hty
    · simp only [Except.ok.injEq, Prod.mk.injEq] at h
      obtain ⟨h5, _⟩ := h
      subst h5
      simp at hty
    · simp only [Except.ok.injEq, Prod.mk.injEq] at h
      obtain ⟨h5, _⟩ := h
      subst h5
      simp at hty
    · simp only [Except.ok.injEq, Prod.mk.injEq] at h
      obtain ⟨h5, _⟩ := h
      subst h5
      push_neg at h4
      simp only [TokVal.asStr]
      exact h4

/-- Claim C10: the reserved words `if` and `return` can never occupy an
identifier position.  The parser's `ident()` production succeeds only on
`ident`-kind tokens, which the lexer never gives the value `if` or
`return`; and concretely, a function definition header using `if` as
the function name fails to parse with a `ParserError`. -/
theorem reserved_words_never_identifiers :
    (∀ (s : LexState) (name : String) (s1 : LexState),
       identP s = .ok name s1 → name ≠ "if" ∧ name ≠ "return") ∧
    parse "int if() \x7b \x7d".data = .fail (.parseE "Expected ident") := by
  constructor
  · intro s name s1 h
    unfold identP at h
    rcases hn : nextTok s with e | ⟨tok, s2⟩ <;> rw [hn] at h
    · exact absurd h (by simp)
    · simp only at h
      by_cases hty : tok.type = "ident"
      · rw [if_pos hty] at h
        simp only [PResult.ok.injEq] at h
        rw [← h.1]
        exact nextTok_ident_not_reserved s tok s2 hn hty
      · rw [if_neg hty] at h
        exact absurd h (by simp)
  · rfl

/-- Witness for `reserved_words_never_identifiers`: `ident()` succeeds
on the input `foo`, so `foo` is neither reserved word. -/
theorem reserved_words_never_identifiers_witness :
    ("foo" : String) ≠ "if" ∧ ("foo" : String) ≠ "return" :=
  reserved_words_never_identifiers.1 (mkLexState "foo".data) "foo" ⟨[], 1, 4⟩
    (by rfl)

/-! ## Termination of the parser (claim C9)

The parser consumes its input: skipping whitespace and reading a token
never lengthen the remaining text, reading a non-eof token strictly
shortens it, and each parser procedure at most consumes.  With the cost
ordering of `costC`, fuel `2 * remaining + cost` then never runs out,
so `parse` — which supplies `2 * length + 4` — always returns a program
or an error. -/

theorem eatWs_length (l : List Char) :
    ∀ line col, (eatWs l line col).rem.length ≤ l.length := by
  induction l with
  | nil => intro line col; simp [eatWs]
  | cons c rest ih =>
    intro line col
    simp only [eatWs]
    split_ifs with h1 h2
    · exact le_trans (ih (line + 1) 1) (Nat.le_succ _)
    · exact le_trans (ih line (col + 1)) (Nat.le_succ _)
    · simp

theorem eatWhitespace_length (s : LexState) :
    s.eatWhitespace.rem.length ≤ s.rem.length :=
  eatWs_length s.rem s.line s.col

theorem dropLetters_length (l : List Char) :
    (dropLetters l).length ≤ l.length := by
  induction l with
  | nil => simp [dropLetters]
  | cons c rest ih =>
    simp only [dropLetters]
    split_ifs
    · exact le_trans ih (Nat.le_succ _)
    · simp

theorem dropDigits_length (l : List Char) :
    (dropDigits l).length ≤ l.length := by
  induction l with
  | nil => simp [dropDigits]
  | cons c rest ih =>
    simp only [dropDigits]
    split_ifs
    · exact le_trans ih (Nat.le_succ _)
    · simp

/-- A successful `next` never lengthens the input, and strictly
shortens it unless it produced the synthetic `eof` token. -/
theorem nextTok_progress (s : LexState) (tok : Token) (s1 : LexState)
    (h : nextTok s = .ok (tok, s1)) :
    s1.rem.length ≤ s.rem.length ∧
      (s1.rem.length < s.rem.length ∨
        (tok.type = "eof" ∧ tok.value = .str "eof")) := by
  have hws := eatWhitespace_length s
  simp only [nextTok] at h
  rcases hrem : s.eatWhitespace.rem with _ | ⟨c, rest⟩ <;> rw [hrem] at h
  · simp only [Except.ok.injEq, Prod.mk.injEq] at h
    obtain ⟨h1, h2⟩ := h
    subst h2
    rw [hrem]
    exact ⟨Nat.zero_le _, Or.inr (by rw [← h1]; exact ⟨rfl, rfl⟩)⟩
  · rw [hrem] at hws
    simp only [List.length_cons] at hws
    simp only at h
    split_ifs at h with h1 h2 h3 h4 <;>
      simp only [Except.ok.injEq, Prod.mk.injEq] at h <;>
        obtain ⟨_, h6⟩ := h <;> subst h6
    · exact ⟨by simp; omega, Or.inl (by simp; omega)⟩
    · have hd := dropDigits_length rest
      refine ⟨?_, Or.inl ?_⟩ <;> · simp only []; omega
    · have hd := dropLetters_length rest
      refine ⟨?_, Or.inl ?_⟩ <;> · simp only []; omega
    · have hd := dropLetters_length rest
      refine ⟨?_, Or.inl ?_⟩ <;> · simp only []; omega

/-- A successful `eat` of a non-eof token value strictly consumes. -/
theorem eatValP_progress (v : TokVal) (s : LexState) (tok : Token)
    (s1 : LexState) (h : eatValP v s = .ok tok s1) :
    s1.rem.length ≤ s.rem.length ∧
      (s1.rem.length < s.rem.length ∨ v = .str "eof") := by
  simp only [eatValP] at h
  rcases hn : nextTok s with e | ⟨tok2, s2⟩ <;> rw [hn] at h <;> simp only at h
  · exact absurd h (by simp)
  · split_ifs at h with hv
    · simp only [PResult.ok.injEq] at h
      obtain ⟨_, h2⟩ := h
      subst h2
      rcases nextTok_progress s tok2 _ hn with ⟨hle, hlt | ⟨_, hval⟩⟩
      · exact ⟨hle, Or.inl hlt⟩
      · exact ⟨hle, Or.inr (by rw [← hv, hval])⟩

/-- A successful `ident()` strictly consumes. -/
theorem identP_progress (s : LexState) (name : String) (s1 : LexState)
    (h : identP s = .ok name s1) : s1.rem.length < s.rem.length := by
  simp only [identP] at h
  rcases hn : nextTok s with e | ⟨tok, s2⟩ <;> rw [hn] at h <;> simp only at h
  · exact absurd h (by simp)
  · split_ifs at h with hty
    · simp only [PResult.ok.injEq] at h
      obtain ⟨_, h2⟩ := h
      subst h2
      rcases nextTok_progress s tok _ hn with ⟨_, hlt | ⟨hteq, _⟩⟩
      · exact hlt
      · rw [hty] at hteq
        exact absurd hteq (by decide)

/-- Every parser procedure at most consumes input, and `statement` and
`fnDef` — the bodies of the two parser loops — strictly consume. -/
theorem parseGo_progress (fuel : Nat) :
    ∀ (c : PCall) (s : LexState) (v : PVal) (s1 : LexState),
      parseGo fuel c s = .ok v s1 →
      s1.rem.length ≤ s.rem.length ∧
        (strictC c = true → s1.rem.length < s.rem.length) := by
  induction fuel with
  | zero => intro c s v s1 h; simp [parseGo] at h
  | succ fuel ih =>
    intro c s v s1 h
    cases c with
    | expr =>
      simp only [parseGo, peekChar] at h
      rcases hn : nextTok s with e | ⟨tok, s2⟩ <;> rw [hn] at h <;>
        try simp only [reduceCtorEq] at h
      split_ifs at h with h1 h2 h3
      · -- function call parse after an ident atom
        rcases hr : parseGo fuel (.fnCallW tok.value.asStr) s2.eatWhitespace
            with ⟨pv, s3⟩ | e | _ <;> rw [hr] at h <;> try simp only [reduceCtorEq] at h
        cases pv <;> simp only [PResult.ok.injEq, reduceCtorEq] at h
        obtain ⟨_, h4⟩ := h
        subst h4
        have hcall := (ih _ _ _ _ hr).1
        have hw := eatWhitespace_length s2
        rcases nextTok_progress s tok s2 hn with ⟨_, hlt | ⟨hteq, _⟩⟩
        · exact ⟨by omega, by simp [strictC]⟩
        · rw [h2.1] at hteq
          exact absurd hteq (by decide)
      · -- binary expression parse
        have hcall := (ih _ _ _ _ h).1
        have hw := eatWhitespace_length s2
        rcases nextTok_progress s tok s2 hn with ⟨_, hlt | ⟨hteq, _⟩⟩
        · exact ⟨by omega, by simp [strictC]⟩
        · rcases h1 with h1 | h1 <;> rw [h1] at hteq <;>
            exact absurd hteq (by decide)
      · -- plain atom
        simp only [PResult.ok.injEq] at h
        obtain ⟨_, h4⟩ := h
        subst h4
        have hw := eatWhitespace_length s2
        rcases nextTok_progress s tok s2 hn with ⟨hle, _⟩
        exact ⟨by omega, by simp [strictC]⟩
    | arithE first =>
      simp only [parseGo] at h
      rcases hn : nextTok s with e | ⟨tok, s2⟩ <;> rw [hn] at h <;>
        try simp only [reduceCtorEq] at h
      by_cases hb :
          tok.value = .str "*" ∨ tok.value = .str "-" ∨ tok.value = .str "<"
      · rw [if_pos hb] at h
        rcases hr : parseGo fuel .expr s2 with ⟨pv, s3⟩ | e | _ <;>
          rw [hr] at h <;> try simp only [reduceCtorEq] at h
        cases pv <;> simp only [PResult.ok.injEq, reduceCtorEq] at h
        obtain ⟨_, h4⟩ := h
        subst h4
        have hcall := (ih _ _ _ _ hr).1
        rcases nextTok_progress s tok s2 hn with ⟨_, hlt | ⟨_, hval⟩⟩
        · exact ⟨by omega, by simp [strictC]⟩
        · rcases hb with hb | hb | hb <;> rw [hb] at hval <;>
            exact absurd hval (by decide)
      · rw [if_neg hb] at h
        exact absurd h (by simp)
    | fnCallW name =>
      simp only [parseGo] at h
      rcases he : eatValP (.str "(") s with ⟨tk, s2⟩ | e | _ <;> rw [he] at h <;>
        try simp only [reduceCtorEq] at h
      rcases hr : parseGo fuel .expr s2 with ⟨pv, s3⟩ | e | _ <;>
        rw [hr] at h <;> try simp only [reduceCtorEq] at h
      cases pv <;> try simp only [reduceCtorEq] at h
      rcases he2 : eatValP (.str ")") s3 with ⟨tk2, s4⟩ | e | _ <;>
        rw [he2] at h <;> try simp only [reduceCtorEq] at h
      simp only [PResult.ok.injEq] at h
      obtain ⟨_, h4⟩ := h
      subst h4
      rcases eatValP_progress _ _ _ _ he with ⟨hle1, hlt1 | hv1⟩
      · have h5 := (ih _ _ _ _ hr).1
        rcases eatValP_progress _ _ _ _ he2 with ⟨hle2, _⟩
        exact ⟨by omega, by simp [strictC]⟩
      · exact absurd hv1 (by decide)
    | returnS =>
      simp only [parseGo] at h
      rcases hr : parseGo fuel .expr s with ⟨pv, s2⟩ | e | _ <;>
        rw [hr] at h <;> try simp only [reduceCtorEq] at h
      cases pv <;> try simp only [reduceCtorEq] at h
      rcases he : eatValP (.str ";") s2 with ⟨tk, s3⟩ | e | _ <;>
        rw [he] at h <;> try simp only [reduceCtorEq] at h
      simp only [PResult.ok.injEq] at h
      obtain ⟨_, h4⟩ := h
      subst h4
      have h5 := (ih _ _ _ _ hr).1
      rcases eatValP_progress _ _ _ _ he with ⟨hle, _⟩
      exact ⟨by omega, by simp [strictC]⟩
    | ifS =>
      simp only [parseGo] at h
      rcases he1 : eatValP (.str "(") s with ⟨tk1, s2⟩ | e | _ <;> rw [he1] at h <;>
        try simp only [reduceCtorEq] at h
      rcases hr1 : parseGo fuel .expr s2 with ⟨pv, s3⟩ | e | _ <;>
        rw [hr1] at h <;> try simp only [reduceCtorEq] at h
      cases pv <;> try simp only [reduceCtorEq] at h
      rcases he2 : eatValP (.str ")") s3 with ⟨tk2, s4⟩ | e | _ <;>
        rw [he2] at h <;> try simp only [reduceCtorEq] at h
      rcases he3 : eatValP (.str "\x7b") s4 with ⟨tk3, s5⟩ | e | _ <;>
        rw [he3] at h <;> try simp only [reduceCtorEq] at h
      rcases hr2 : parseGo fuel .untilS s5 with ⟨pv2, s6⟩ | e | _ <;>
        rw [hr2] at h <;> try simp only [reduceCtorEq] at h
      cases pv2 <;> try simp only [reduceCtorEq] at h
      rcases he4 : eatValP (.str "\x7d") s6 with ⟨tk4, s7⟩ | e | _ <;>
        rw [he4] at h <;> try simp only [reduceCtorEq] at h
      simp only [PResult.ok.injEq] at h
      obtain ⟨_, h4⟩ := h
      subst h4
      rcases eatValP_progress _ _ _ _ he1 with ⟨hle1, _⟩
      have h5 := (ih _ _ _ _ hr1).1
      rcases eatValP_progress _ _ _ _ he2 with ⟨hle2, _⟩
      rcases eatValP_progress _ _ _ _ he3 with ⟨hle3, _⟩
      have h6 := (ih _ _ _ _ hr2).1
      rcases eatValP_progress _ _ _ _ he4 with ⟨hle4, _⟩
      exact ⟨by omega, by simp [strictC]⟩
    | stmt =>
      simp only [parseGo] at h
      rcases hn : nextTok s with e | ⟨tok, s2⟩ <;> rw [hn] at h <;>
        try simp only [reduceCtorEq] at h
      split_ifs at h with h1 h2 h3
      · -- 'if' statement
        have h5 := (ih _ _ _ _ h).1
        rcases nextTok_progress s tok s2 hn with ⟨_, hlt | ⟨_, hval⟩⟩
        · exact ⟨by omega, fun _ => by omega⟩
        · rw [h2] at hval
          exact absurd hval (by decide)
      · -- 'return' statement
        have h5 := (ih _ _ _ _ h).1
        rcases nextTok_progress s tok s2 hn with ⟨_, hlt | ⟨_, hval⟩⟩
        · exact ⟨by omega, fun _ => by omega⟩
        · rw [h3] at hval
          exact absurd hval (by decide)
      · -- call statement
        rcases hr : parseGo fuel (.fnCallW tok.value.asStr) s2 with ⟨pv, s3⟩ | e | _ <;>
          rw [hr] at h <;> try simp only [reduceCtorEq] at h
        cases pv <;> try simp only [reduceCtorEq] at h
        rcases he : eatValP (.str ";") s3 with ⟨tk, s4⟩ | e | _ <;>
          rw [he] at h <;> try simp only [reduceCtorEq] at h
        simp only [PResult.ok.injEq] at h
        obtain ⟨_, h4⟩ := h
        subst h4
        have h5 := (ih _ _ _ _ hr).1
        rcases eatValP_progress _ _ _ _ he with ⟨hle, _⟩
        rcases nextTok_progress s tok s2 hn with ⟨_, hlt | ⟨hteq, _⟩⟩
        · exact ⟨by omega, fun _ => by omega⟩
        · rcases h1 with h1 | h1 <;> rw [h1] at hteq <;>
            exact absurd hteq (by decide)
    | untilS =>
      simp only [parseGo, peekChar] at h
      split_ifs at h with h1
      · simp only [PResult.ok.injEq] at h
        obtain ⟨_, h4⟩ := h
        subst h4
        have hw := eatWhitespace_length s
        exact ⟨by omega, by simp [strictC]⟩
      · rcases hr1 : parseGo fuel .stmt s.eatWhitespace with ⟨pv, s2⟩ | e | _ <;>
          rw [hr1] at h <;> try simp only [reduceCtorEq] at h
        cases pv <;> try simp only [reduceCtorEq] at h
        rcases hr2 : parseGo fuel .untilS s2 with ⟨pv2, s3⟩ | e | _ <;>
          rw [hr2] at h <;> try simp only [reduceCtorEq] at h
        cases pv2 <;> simp only [PResult.ok.injEq, reduceCtorEq] at h
        obtain ⟨_, h4⟩ := h
        subst h4
        have hw := eatWhitespace_length s
        have h5 := (ih _ _ _ _ hr1).1
        have h6 := (ih _ _ _ _ hr2).1
        exact ⟨by omega, by simp [strictC]⟩
    | fnD =>
      simp only [parseGo, peekChar] at h
      rcases hi1 : identP s with ⟨rt, s2⟩ | e | _ <;> rw [hi1] at h <;>
        try simp only [reduceCtorEq] at h
      rcases hi2 : identP s2 with ⟨nm, s3⟩ | e | _ <;> rw [hi2] at h <;>
        try simp only [reduceCtorEq] at h
      rcases he1 : eatValP (.str "(") s3 with ⟨tk1, s4⟩ | e | _ <;> rw [he1] at h <;>
        try simp only [reduceCtorEq] at h
      have hw := eatWhitespace_length s4
      split_ifs at h with h1
      · -- no parameter
        simp only [] at h
        rcases he2 : eatValP (.str ")") s4.eatWhitespace with ⟨tk2, s8⟩ | e | _ <;>
          rw [he2] at h <;> try simp only [reduceCtorEq] at h
        rcases he3 : eatValP (.str "\x7b") s8 with ⟨tk3, s9⟩ | e | _ <;>
          rw [he3] at h <;> try simp only [reduceCtorEq] at h
        rcases hr : parseGo fuel .untilS s9 with ⟨pv, s10⟩ | e | _ <;>
          rw [hr] at h <;> try simp only [reduceCtorEq] at h
        cases pv <;> try simp only [reduceCtorEq] at h
        rcases he4 : eatValP (.str "\x7d") s10 with ⟨tk4, s11⟩ | e | _ <;>
          rw [he4] at h <;> try simp only [reduceCtorEq] at h
        simp only [PResult.ok.injEq] at h
        obtain ⟨_, h4⟩ := h
        subst h4
        have hp1 := identP_progress _ _ _ hi1
        have hp2 := identP_progress _ _ _ hi2
        rcases eatValP_progress _ _ _ _ he1 with ⟨hle1, _⟩
        rcases eatValP_progress _ _ _ _ he2 with ⟨hle2, _⟩
        rcases eatValP_progress _ _ _ _ he3 with ⟨hle3, _⟩
        have h6 := (ih _ _ _ _ hr).1
        rcases eatValP_progress _ _ _ _ he4 with ⟨hle4, _⟩
        exact ⟨by omega, fun _ => by omega⟩
      · -- one parameter: two more identifiers
        rcases hi3 : identP s4.eatWhitespace with ⟨pt, s5⟩ | e | _ <;>
          rw [hi3] at h <;> try simp only [reduceCtorEq] at h
        rcases hi4 : identP s5 with ⟨pn, s6⟩ | e | _ <;> rw [hi4] at h <;>
          try simp only [reduceCtorEq] at h
        rcases he2 : eatValP (.str ")") s6 with ⟨tk2, s8⟩ | e | _ <;>
          rw [he2] at h <;> try simp only [reduceCtorEq] at h
        rcases he3 : eatValP (.str "\x7b") s8 with ⟨tk3, s9⟩ | e | _ <;>
          rw [he3] at h <;> try simp only [reduceCtorEq] at h
        rcases hr : parseGo fuel .untilS s9 with ⟨pv, s10⟩ | e | _ <;>
          rw [hr] at h <;> try simp only [reduceCtorEq] at h
        cases pv <;> try simp only [reduceCtorEq] at h
        rcases he4 : eatValP (.str "\x7d") s10 with ⟨tk4, s11⟩ | e | _ <;>
          rw [he4] at h <;> try simp only [reduceCtorEq] at h
        simp only [PResult.ok.injEq] at h
        obtain ⟨_, h4⟩ := h
        subst h4
        have hp1 := identP_progress _ _ _ hi1
        have hp2 := identP_progress _ _ _ hi2
        rcases eatValP_progress _ _ _ _ he1 with ⟨hle1, _⟩
        have hp3 := identP_progress _ _ _ hi3
        have hp4 := identP_progress _ _ _ hi4
        rcases eatValP_progress _ _ _ _ he2 with ⟨hle2, _⟩
        rcases eatValP_progress _ _ _ _ he3 with ⟨hle3, _⟩
        have h6 := (ih _ _ _ _ hr).1
        rcases eatValP_progress _ _ _ _ he4 with ⟨hle4, _⟩
        exact ⟨by omega, fun _ => by omega⟩
    | prog =>
      simp only [parseGo] at h
      split_ifs at h with h1
      · simp only [PResult.ok.injEq] at h
        obtain ⟨_, h4⟩ := h
        subst h4
        exact ⟨le_refl _, by simp [strictC]⟩
      · rcases hr1 : parseGo fuel .fnD s with ⟨pv, s2⟩ | e | _ <;>
          rw [hr1] at h <;> try simp only [reduceCtorEq] at h
        cases pv <;> try simp only [reduceCtorEq] at h
        rcases hr2 : parseGo fuel .prog s2 with ⟨pv2, s3⟩ | e | _ <;>
          rw [hr2] at h <;> try simp only [reduceCtorEq] at h
        cases pv2 <;> simp only [PResult.ok.injEq, reduceCtorEq] at h
        obtain ⟨_, h4⟩ := h
        subst h4
        have h5 := (ih _ _ _ _ hr1).1
        have h6 := (ih _ _ _ _ hr2).1
        exact ⟨by omega, by simp [strictC]⟩

theorem eatValP_ne_timeout (v : TokVal) (s : LexState) :
    eatValP v s ≠ .timeout := by
  intro h
  simp only [eatValP] at h
  rcases hn : nextTok s with e | ⟨tok, s1⟩ <;> rw [hn] at h <;>
    try simp only [reduceCtorEq] at h
  split_ifs at h

theorem identP_ne_timeout (s : LexState) : identP s ≠ .timeout := by
  intro h
  simp only [identP] at h
  rcases hn : nextTok s with e | ⟨tok, s1⟩ <;> rw [hn] at h <;>
    try simp only [reduceCtorEq] at h
  split_ifs at h

/-- With fuel `2 * remaining + costC c`, no parser procedure ever
exhausts its fuel: the text shrinks faster than the fuel does. -/
theorem parseGo_noTimeout (fuel : Nat) :
    ∀ (c : PCall) (s : LexState),
      2 * s.rem.length + costC c ≤ fuel → parseGo fuel c s ≠ .timeout := by
  induction fuel with
  | zero =>
    intro c s hb
    have h1 : 1 ≤ costC c := by cases c <;> simp [costC]
    omega
  | succ fuel ih =>
    intro c s hb hto
    cases c with
    | expr =>
      simp only [costC] at hb
      simp only [parseGo, peekChar] at hto
      rcases hn : nextTok s with e | ⟨tok, s2⟩ <;> rw [hn] at hto <;>
        try simp only [reduceCtorEq] at hto
      split_ifs at hto with h1 h2 h3
      · have hstrict : s2.rem.length < s.rem.length := by
          rcases nextTok_progress s tok s2 hn with ⟨_, hlt | ⟨hteq, _⟩⟩
          · exact hlt
          · rw [h2.1] at hteq
            exact absurd hteq (by decide)
        have hw := eatWhitespace_length s2
        have hnt := ih (.fnCallW tok.value.asStr) s2.eatWhitespace
          (by simp only [costC]; omega)
        rcases hr : parseGo fuel (.fnCallW tok.value.asStr) s2.eatWhitespace
            with ⟨pv, s3⟩ | e | _
        · rw [hr] at hto
          cases pv <;> simp at hto
        · rw [hr] at hto
          simp at hto
        · exact hnt hr
      · have hstrict : s2.rem.length < s.rem.length := by
          rcases nextTok_progress s tok s2 hn with ⟨_, hlt | ⟨hteq, _⟩⟩
          · exact hlt
          · rcases h1 with h1 | h1 <;> rw [h1] at hteq <;>
              exact absurd hteq (by decide)
        have hw := eatWhitespace_length s2
        have hnt := ih (.arithE (tokAtom tok)) s2.eatWhitespace
          (by simp only [costC]; omega)
        exact hnt hto
    | arithE first =>
      simp only [costC] at hb
      simp only [parseGo] at hto
      rcases hn : nextTok s with e | ⟨tok, s2⟩ <;> rw [hn] at hto <;>
        try simp only [reduceCtorEq] at hto
      by_cases hb2 :
          tok.value = .str "*" ∨ tok.value = .str "-" ∨ tok.value = .str "<"
      · rw [if_pos hb2] at hto
        have hstrict : s2.rem.length < s.rem.length := by
          rcases nextTok_progress s tok s2 hn with ⟨_, hlt | ⟨_, hval⟩⟩
          · exact hlt
          · rcases hb2 with hb2 | hb2 | hb2 <;> rw [hb2] at hval <;>
              exact absurd hval (by decide)
        have hnt := ih .expr s2 (by simp only [costC]; omega)
        rcases hr : parseGo fuel .expr s2 with ⟨pv, s3⟩ | e | _
        · rw [hr] at hto
          cases pv <;> simp at hto
        · rw [hr] at hto
          simp at hto
        · exact hnt hr
      · rw [if_neg hb2] at hto
        simp at hto
    | fnCallW name =>
      simp only [costC] at hb
      simp only [parseGo] at hto
      rcases he : eatValP (.str "(") s with ⟨tk, s2⟩ | e | _ <;>
        rw [he] at hto <;> try simp only [reduceCtorEq] at hto
      · have hstrict : s2.rem.length < s.rem.length := by
          rcases eatValP_progress _ _ _ _ he with ⟨_, hlt | hv⟩
          · exact hlt
          · exact absurd hv (by decide)
        have hnt := ih .expr s2 (by simp only [costC]; omega)
        rcases hr : parseGo fuel .expr s2 with ⟨pv, s3⟩ | e | _
        · rw [hr] at hto
          cases pv <;> try simp only [reduceCtorEq] at hto
          rcases he2 : eatValP (.str ")") s3 with ⟨tk2, s4⟩ | e | _ <;>
            rw [he2] at hto <;> try simp only [reduceCtorEq] at hto
          exact eatValP_ne_timeout _ _ he2
        · rw [hr] at hto
          simp at hto
        · exact hnt hr
      · exact eatValP_ne_timeout _ _ he
    | returnS =>
      simp only [costC] at hb
      simp only [parseGo] at hto
      have hnt := ih .expr s (by simp only [costC]; omega)
      rcases hr : parseGo fuel .expr s with ⟨pv, s2⟩ | e | _ <;>
        rw [hr] at hto <;> try simp only [reduceCtorEq] at hto
      · cases pv <;> try simp only [reduceCtorEq] at hto
        rcases he : eatValP (.str ";") s2 with ⟨tk, s3⟩ | e | _ <;>
          rw [he] at hto <;> try simp only [reduceCtorEq] at hto
        exact eatValP_ne_timeout _ _ he
      · exact hnt hr
    | ifS =>
      simp only [costC] at hb
      simp only [parseGo] at hto
      rcases he1 : eatValP (.str "(") s with ⟨tk1, s2⟩ | e | _ <;>
        rw [he1] at hto <;> try simp only [reduceCtorEq] at hto
      · have hs2 : s2.rem.length < s.rem.length := by
          rcases eatValP_progress _ _ _ _ he1 with ⟨_, hlt | hv⟩
          · exact hlt
          · exact absurd hv (by decide)
        have hnt := ih .expr s2 (by simp only [costC]; omega)
        rcases hr1 : parseGo fuel .expr s2 with ⟨pv, s3⟩ | e | _ <;>
          rw [hr1] at hto <;> try simp only [reduceCtorEq] at hto
        · cases pv <;> try simp only [reduceCtorEq] at hto
          have hs3 : s3.rem.length ≤ s2.rem.length :=
            (parseGo_progress fuel _ _ _ _ hr1).1
          rcases he2 : eatValP (.str ")") s3 with ⟨tk2, s4⟩ | e | _ <;>
            rw [he2] at hto <;> try simp only [reduceCtorEq] at hto
          · have hs4 : s4.rem.length < s3.rem.length := by
              rcases eatValP_progress _ _ _ _ he2 with ⟨_, hlt | hv⟩
              · exact hlt
              · exact absurd hv (by decide)
            rcases he3 : eatValP (.str "\x7b") s4 with ⟨tk3, s5⟩ | e | _ <;>
              rw [he3] at hto <;> try simp only [reduceCtorEq] at hto
            · have hs5 : s5.rem.length < s4.rem.length := by
                rcases eatValP_progress _ _ _ _ he3 with ⟨_, hlt | hv⟩
                · exact hlt
                · exact absurd hv (by decide)
              have hnt2 := ih .untilS s5 (by simp only [costC]; omega)
              rcases hr2 : parseGo fuel .untilS s5 with ⟨pv2, s6⟩ | e | _ <;>
                rw [hr2] at hto <;> try simp only [reduceCtorEq] at hto
              · cases pv2 <;> try simp only [reduceCtorEq] at hto
                rcases he4 : eatValP (.str "\x7d") s6 with ⟨tk4, s7⟩ | e | _ <;>
                  rw [he4] at hto <;> try simp only [reduceCtorEq] at hto
                exact eatValP_ne_timeout _ _ he4
              · exact hnt2 hr2
            · exact eatValP_ne_timeout _ _ he3
          · exact eatValP_ne_timeout _ _ he2
        · exact hnt hr1
      · exact eatValP_ne_timeout _ _ he1
    | stmt =>
      simp only [costC] at hb
      simp only [parseGo] at hto
      rcases hn : nextTok s with e | ⟨tok, s2⟩ <;> rw [hn] at hto <;>
        try simp only [reduceCtorEq] at hto
      split_ifs at hto with h1 h2 h3
      · have hstrict : s2.rem.length < s.rem.length := by
          rcases nextTok_progress s tok s2 hn with ⟨_, hlt | ⟨hteq, _⟩⟩
          · exact hlt
          · rcases h1 with h1 | h1 <;> rw [h1] at hteq <;>
              exact absurd hteq (by decide)
        exact ih .ifS s2 (by simp only [costC]; omega) hto
      · have hstrict : s2.rem.length < s.rem.length := by
          rcases nextTok_progress s tok s2 hn with ⟨_, hlt | ⟨hteq, _⟩⟩
          · exact hlt
          · rcases h1 with h1 | h1 <;> rw [h1] at hteq <;>
              exact absurd hteq (by decide)
        exact ih .returnS s2 (by simp only [costC]; omega) hto
      · have hstrict : s2.rem.length < s.rem.length := by
          rcases nextTok_progress s tok s2 hn with ⟨_, hlt | ⟨hteq, _⟩⟩
          · exact hlt
          · rcases h1 with h1 | h1 <;> rw [h1] at hteq <;>
              exact absurd hteq (by decide)
        have hnt := ih (.fnCallW tok.value.asStr) s2 (by simp only [costC]; omega)
        rcases hr : parseGo fuel (.fnCallW tok.value.asStr) s2
            with ⟨pv, s3⟩ | e | _ <;>
          rw [hr] at hto <;> try simp only [reduceCtorEq] at hto
        · cases pv <;> try simp only [reduceCtorEq] at hto
          rcases he : eatValP (.str ";") s3 with ⟨tk, s4⟩ | e | _ <;>
            rw [he] at hto <;> try simp only [reduceCtorEq] at hto
          exact eatValP_ne_timeout _ _ he
        · exact hnt hr
    | untilS =>
      simp only [costC] at hb
      simp only [parseGo, peekChar] at hto
      have hw := eatWhitespace_length s
      split_ifs at hto with h1
      · have hnt := ih .stmt s.eatWhitespace (by simp only [costC]; omega)
        rcases hr1 : parseGo fuel .stmt s.eatWhitespace with ⟨pv, s2⟩ | e | _ <;>
          rw [hr1] at hto <;> try simp only [reduceCtorEq] at hto
        · cases pv <;> try simp only [reduceCtorEq] at hto
          have hs2 : s2.rem.length < s.eatWhitespace.rem.length :=
            (parseGo_progress fuel _ _ _ _ hr1).2 (by simp [strictC])
          have hnt2 := ih .untilS s2 (by simp only [costC]; omega)
          rcases hr2 : parseGo fuel .untilS s2 with ⟨pv2, s3⟩ | e | _ <;>
            rw [hr2] at hto <;> try simp only [reduceCtorEq] at hto
          · cases pv2 <;> simp at hto
          · exact hnt2 hr2
        · exact hnt hr1
    | fnD =>
      simp only [costC] at hb
      simp only [parseGo, peekChar] at hto
      rcases hi1 : identP s with ⟨rt, s2⟩ | e | _ <;> rw [hi1] at hto <;>
        try simp only [reduceCtorEq] at hto
      · have hs2 := identP_progress _ _ _ hi1
        rcases hi2 : identP s2 with ⟨nm, s3⟩ | e | _ <;> rw [hi2] at hto <;>
          try simp only [reduceCtorEq] at hto
        · have hs3 := identP_progress _ _ _ hi2
          rcases he1 : eatValP (.str "(") s3 with ⟨tk1, s4⟩ | e | _ <;>
            rw [he1] at hto <;> try simp only [reduceCtorEq] at hto
          · have hs4 : s4.rem.length < s3.rem.length := by
              rcases eatValP_progress _ _ _ _ he1 with ⟨_, hlt | hv⟩
              · exact hlt
              · exact absurd hv (by decide)
            have hw := eatWhitespace_length s4
            split_ifs at hto with h1
            · simp only [] at hto
              rcases he2 : eatValP (.str ")") s4.eatWhitespace
                  with ⟨tk2, s8⟩ | e | _ <;>
                rw [he2] at hto <;> try simp only [reduceCtorEq] at hto
              · have hs8 : s8.rem.length < s4.eatWhitespace.rem.length := by
                  rcases eatValP_progress _ _ _ _ he2 with ⟨_, hlt | hv⟩
                  · exact hlt
                  · exact absurd hv (by decide)
                rcases he3 : eatValP (.str "\x7b") s8 with ⟨tk3, s9⟩ | e | _ <;>
                  rw [he3] at hto <;> try simp only [reduceCtorEq] at hto
                · have hs9 : s9.rem.length < s8.rem.length := by
                    rcases eatValP_progress _ _ _ _ he3 with ⟨_, hlt | hv⟩
                    · exact hlt
                    · exact absurd hv (by decide)
                  have hnt := ih .untilS s9 (by simp only [costC]; omega)
                  rcases hr : parseGo fuel .untilS s9 with ⟨pv, s10⟩ | e | _ <;>
                    rw [hr] at hto <;> try simp only [reduceCtorEq] at hto
                  · cases pv <;> try simp only [reduceCtorEq] at hto
                    rcases he4 : eatValP (.str "\x7d") s10
                        with ⟨tk4, s11⟩ | e | _ <;>
                      rw [he4] at hto <;> try simp only [reduceCtorEq] at hto
                    exact eatValP_ne_timeout _ _ he4
                  · exact hnt hr
                · exact eatValP_ne_timeout _ _ he3
              · exact eatValP_ne_timeout _ _ he2
            · rcases hi3 : identP s4.eatWhitespace with ⟨pt, s5⟩ | e | _ <;>
                rw [hi3] at hto <;> try simp only [reduceCtorEq] at hto
              · have hs5 := identP_progress _ _ _ hi3
                rcases hi4 : identP s5 with ⟨pn, s6⟩ | e | _ <;>
                  rw [hi4] at hto <;> try simp only [reduceCtorEq] at hto
                · have hs6 := identP_progress _ _ _ hi4
                  rcases he2 : eatValP (.str ")") s6 with ⟨tk2, s8⟩ | e | _ <;>
                    rw [he2] at hto <;> try simp only [reduceCtorEq] at hto
                  · have hs8 : s8.rem.length < s6.rem.length := by
                      rcases eatValP_progress _ _ _ _ he2 with ⟨_, hlt | hv⟩
                      · exact hlt
                      · exact absurd hv (by decide)
                    rcases he3 : eatValP (.str "\x7b") s8
                        with ⟨tk3, s9⟩ | e | _ <;>
                      rw [he3] at hto <;> try simp only [reduceCtorEq] at hto
                    · have hs9 : s9.rem.length < s8.rem.length := by
                        rcases eatValP_progress _ _ _ _ he3 with ⟨_, hlt | hv⟩
                        · exact hlt
                        · exact absurd hv (by decide)
                      have hnt := ih .untilS s9 (by simp only [costC]; omega)
                      rcases hr : parseGo fuel .untilS s9
                          with ⟨pv, s10⟩ | e | _ <;>
                        rw [hr] at hto <;> try simp only [reduceCtorEq] at hto
                      · cases pv <;> try simp only [reduceCtorEq] at hto
                        rcases he4 : eatValP (.str "\x7d") s10
                            with ⟨tk4, s11⟩ | e | _ <;>
                          rw [he4] at hto <;>
                            try simp only [reduceCtorEq] at hto
                        exact eatValP_ne_timeout _ _ he4
                      · exact hnt hr
                    · exact eatValP_ne_timeout _ _ he3
                  · exact eatValP_ne_timeout _ _ he2
                · exact identP_ne_timeout _ hi4
              · exact identP_ne_timeout _ hi3
          · exact eatValP_ne_timeout _ _ he1
        · exact identP_ne_timeout _ hi2
      · exact identP_ne_timeout _ hi1
    | prog =>
      simp only [costC] at hb
      simp only [parseGo] at hto
      split_ifs at hto with h1
      · have hnt := ih .fnD s (by simp only [costC]; omega)
        rcases hr1 : parseGo fuel .fnD s with ⟨pv, s2⟩ | e | _ <;>
          rw [hr1] at hto <;> try simp only [reduceCtorEq] at hto
        · cases pv <;> try simp only [reduceCtorEq] at hto
          have hs2 : s2.rem.length < s.rem.length :=
            (parseGo_progress fuel _ _ _ _ hr1).2 (by simp [strictC])
          have hnt2 := ih .prog s2 (by simp only [costC]; omega)
          rcases hr2 : parseGo fuel .prog s2 with ⟨pv2, s3⟩ | e | _ <;>
            rw [hr2] at hto <;> try simp only [reduceCtorEq] at hto
          · cases pv2 <;> simp at hto
          · exact hnt2 hr2
        · exact hnt hr1

/-- Claim C9: parsing terminates on every finite input text — `parse`
returns a `Program` or raises a `ParserError` or `LexingError`, never
exhausting its fuel of `2 * length + 4`; and on the unterminated block
`void main() { print(1);` the body-collecting loop reaches end of
input, where the lexer's `eof` token is rejected by the statement
production with a `ParserError`. -/
theorem parse_terminates :
    (∀ text : List Char,
       (∃ p s, parse text = .ok p s) ∨ (∃ e, parse text = .fail e)) ∧
    parse "void main() \x7b print(1);".data =
      .fail (.parseE "expected statement") := by
  constructor
  · intro text
    have hnt := parseGo_noTimeout (parseFuel text) .prog (mkLexState text)
      (by simp [parseFuel, costC, mkLexState])
    rcases hr : parseGo (parseFuel text) .prog (mkLexState text)
        with ⟨pv, s⟩ | e | _
    · rcases pv with x | ⟨n, a⟩ | x | xs | x | ds
      · exact Or.inr ⟨.parseE "ice", by simp [parse, hr]⟩
      · exact Or.inr ⟨.parseE "ice", by simp [parse, hr]⟩
      · exact Or.inr ⟨.parseE "ice", by simp [parse, hr]⟩
      · exact Or.inr ⟨.parseE "ice", by simp [parse, hr]⟩
      · exact Or.inr ⟨.parseE "ice", by simp [parse, hr]⟩
      · exact Or.inl ⟨⟨ds.map .fnDef⟩, s, by simp [parse, hr]⟩
    · exact Or.inr ⟨e, by simp [parse, hr]⟩
    · exact absurd hr hnt
  · rfl

end Adso
